import Mathlib

/-!
Verification of the logs-agent orchestration core:
`pkg/logs` (Agent, NewAgent, Agent.Start, Agent.Stop) and
`pkg/logs/pipeline/pipeline.go` (Pipeline, NewPipeline, Pipeline.Start,
Pipeline.Stop).

Pure Go values are embedded as Lean structures.  Go buffered channels are
embedded as a capacity plus a FIFO buffer; `make(chan T, n)` is embedded
as an `Option`-returning constructor since Go panics on a negative size.
Start/Stop call sequencing is embedded as event traces: a synchronous call
contributes a begin event followed by an end event; the concurrent
ParallelStopper contributes any interleaving of its members' begin/end
pairs.  The shutdown race of `Agent.Stop` (goroutine + select + timer) is
embedded as a timed trace parametrised by the running time of the serial
stop sequence, with time measured in nanoseconds as Go's `time.Duration`.
-/

namespace LogsAgent

/-- One log record flowing through the pipeline (content plus source
metadata; immutability is inherent to the embedding). -/
structure Message where
  content : String
  source : String
deriving DecidableEq

/-- A Go buffered channel of capacity `capacity`, holding `buffer`
(front of the list is the next element to be received). -/
structure Chan (α : Type) where
  capacity : Nat
  buffer : List α
deriving DecidableEq

/-- One channel operation: a send of a value, or a receive. -/
inductive ChanOp (α : Type)
  | send (x : α)
  | recv

/-- Semantics of one channel operation, Go channel discipline: a send
completes (appends) only when the buffer is below capacity, otherwise the
sender stays blocked and the channel is unchanged; a receive takes the
front element when present. -/
def Chan.step {α : Type} (c : Chan α) : ChanOp α → Chan α
  | .send x => if c.buffer.length < c.capacity then { c with buffer := c.buffer ++ [x] } else c
  | .recv => { c with buffer := c.buffer.tail }

/-- Run a sequence of channel operations. -/
def Chan.run {α : Type} (c : Chan α) (ops : List (ChanOp α)) : Chan α :=
  ops.foldl Chan.step c

/-- Go `make(chan α, size)` with an `int` size: panics (None) when the
size is negative, otherwise allocates an empty buffer of that capacity. -/
def mkChan (α : Type) (size : Int) : Option (Chan α) :=
  if size < 0 then none else some ⟨size.toNat, []⟩

/-- One configured network endpoint (address, credential and the
protocol/encoding flag `UseProto` read by `NewPipeline`). -/
structure Endpoint where
  host : String
  apiKey : String
  UseProto : Bool
deriving DecidableEq

/-- The endpoint descriptor handed to `NewPipeline`: one main endpoint
plus zero or more additional endpoints. -/
structure Endpoints where
  Main : Endpoint
  Additionals : List Endpoint
deriving DecidableEq

/-- Modelled from the spec: the DestinationsContext is a process-wide
shared resource referenced by every Destination.  The `id` field models
the allocation identity of the Go heap object, so that "the same shared
context" is expressible as equality. -/
structure DestinationsContext where
  id : Nat
deriving DecidableEq

/-- Modelled from the spec: `client.NewDestinationsContext()` allocates a
fresh shared context; the allocation identity is passed explicitly. -/
def NewDestinationsContext (id : Nat) : DestinationsContext :=
  ⟨id⟩

/-- Modelled from the spec: a Destination wraps one endpoint and merely
references the shared DestinationsContext. -/
structure Destination where
  endpoint : Endpoint
  destinationsContext : DestinationsContext
deriving DecidableEq

/-- Modelled from the spec: `client.NewDestination(endpoint, ctx)` builds
the Destination for one endpoint over the shared context. -/
def NewDestination (endpoint : Endpoint) (ctx : DestinationsContext) : Destination :=
  ⟨endpoint, ctx⟩

/-- Modelled from the spec: exactly one main Destination plus the ordered
additional Destinations. -/
structure Destinations where
  main : Destination
  additionals : List Destination
deriving DecidableEq

/-- Modelled from the spec: `client.NewDestinations(main, additionals)`. -/
def NewDestinations (main : Destination) (additionals : List Destination) : Destinations :=
  ⟨main, additionals⟩

/-- The two message encodings selected by the main endpoint's protocol
flag. -/
inductive Encoder
  | proto
  | raw
deriving DecidableEq

/-- Modelled from the spec: `processor.NewEncoder(useProto)` selects the
protocol-buffer encoding exactly when the flag is set. -/
def NewEncoder (useProto : Bool) : Encoder :=
  if useProto then .proto else .raw

/-- The Processor stage: reads `inputChan`, encodes, writes
`outputChan`. -/
structure Processor where
  inputChan : Chan Message
  outputChan : Chan Message
  encoder : Encoder
deriving DecidableEq

/-- Modelled from the spec: `processor.New(inputChan, outputChan,
encoder)`. -/
def Processor.New (inputChan outputChan : Chan Message) (encoder : Encoder) : Processor :=
  ⟨inputChan, outputChan, encoder⟩

/-- The Sender stage: reads `inputChan`, submits to `destinations`,
forwards to `outputChan` (toward the Auditor). -/
structure Sender where
  inputChan : Chan Message
  outputChan : Chan Message
  destinations : Destinations
deriving DecidableEq

/-- Modelled from the spec: `sender.NewSender(inputChan, outputChan,
destinations)`. -/
def NewSender (inputChan outputChan : Chan Message) (destinations : Destinations) : Sender :=
  ⟨inputChan, outputChan, destinations⟩

/-- `Pipeline` from pipeline.go: the entry queue `InputChan`, the
processor and the sender. -/
structure Pipeline where
  InputChan : Chan Message
  processor : Processor
  sender : Sender
deriving DecidableEq

/-- `NewPipeline` from pipeline.go, statement by statement: main
destination, additional destinations, destinations, sender channel,
sender, input channel, encoder from `endpoints.Main.UseProto`,
processor.  A negative `bufferSize` makes a channel allocation panic,
embedded as `none`. -/
def NewPipeline (outputChan : Chan Message) (bufferSize : Int) (endpoints : Endpoints)
    (destinationsContext : DestinationsContext) : Option Pipeline :=
  let main := NewDestination endpoints.Main destinationsContext
  let additionals := endpoints.Additionals.map fun endpoint =>
    NewDestination endpoint destinationsContext
  let destinations := NewDestinations main additionals
  match mkChan Message bufferSize with
  | none => none
  | some senderChan =>
    let sender := NewSender senderChan outputChan destinations
    match mkChan Message bufferSize with
    | none => none
    | some inputChan =>
      let encoder := NewEncoder endpoints.Main.UseProto
      let processor := Processor.New inputChan senderChan encoder
      some { InputChan := inputChan, processor := processor, sender := sender }

/-- The two stages of one Pipeline. -/
inductive Stage
  | processor
  | sender
deriving DecidableEq

/-- Observable lifecycle events of the pipeline stages: a synchronous
`Start()`/`Stop()` call on a stage contributes its begin event followed by
its end event. -/
inductive StageEvent
  | startBegin (s : Stage)
  | startEnd (s : Stage)
  | stopBegin (s : Stage)
  | stopEnd (s : Stage)
deriving DecidableEq

/-- `Pipeline.Start` from pipeline.go: `p.sender.Start()` then
`p.processor.Start()`, each call synchronous. -/
def Pipeline.Start (_ : Pipeline) : List StageEvent :=
  [.startBegin .sender, .startEnd .sender, .startBegin .processor, .startEnd .processor]

/-- `Pipeline.Stop` from pipeline.go: `p.processor.Stop()` then
`p.sender.Stop()`, each call synchronous. -/
def Pipeline.Stop (_ : Pipeline) : List StageEvent :=
  [.stopBegin .processor, .stopEnd .processor, .stopBegin .sender, .stopEnd .sender]

/-- The health handle returned by `health.Register`. -/
structure HealthHandle where
  name : String
deriving DecidableEq

/-- `health.Register("logs-agent")`. -/
def healthRegister (name : String) : HealthHandle :=
  ⟨name⟩

/-- The Auditor: durable acknowledgment stage fed by its own bounded
queue. -/
structure Auditor where
  runPath : String
  inputChan : Chan Message
  health : HealthHandle
deriving DecidableEq

/-- Modelled from the spec: `auditor.New(runPath, bufferSize, health)`
creates the Auditor with a bounded input queue of the given size (the
Auditor runs its own bounded-queue-fed processing loop with the same
backpressure discipline as the other stages). -/
def Auditor.New (runPath : String) (bufferSize : Nat) (health : HealthHandle) : Auditor :=
  ⟨runPath, ⟨bufferSize, []⟩, health⟩

/-- The PipelineProvider: a fixed pool of pipelines sized at
construction. -/
structure Provider where
  numberOfPipelines : Nat
  bufferSize : Nat
  pipelines : List (Option Pipeline)
deriving DecidableEq

/-- Modelled from the spec: `pipeline.NewProvider(n, bufferSize, auditor,
endpoints, ctx)` owns a fixed pool of `n` Pipelines, each built by
`NewPipeline` with the same buffer size, endpoints and shared context,
all outputting to the Auditor's queue. -/
def NewProvider (n : Nat) (bufferSize : Nat) (auditor : Auditor) (endpoints : Endpoints)
    (ctx : DestinationsContext) : Provider :=
  { numberOfPipelines := n
    bufferSize := bufferSize
    pipelines := List.replicate n (NewPipeline auditor.inputChan (↑bufferSize) endpoints ctx) }

/-- The five source-collector inputs wired by `NewAgent`, in construction
order. -/
inductive Input
  | fileScanner
  | containerLauncher
  | listenerLauncher
  | journaldLauncher
  | windowseventLauncher
deriving DecidableEq

/-- The components managed by the lifecycle orchestrator, viewed through
the Restartable capability. -/
inductive LComponent
  | destinationsCtx
  | auditor
  | pipelineProvider
  | input (i : Input)
deriving DecidableEq

/-- Observable lifecycle events of managed components: a component's
`Start()`/`Stop()` contributes a begin event and an end event. -/
inductive LEvent
  | startBegin (c : LComponent)
  | startEnd (c : LComponent)
  | stopBegin (c : LComponent)
  | stopEnd (c : LComponent)
deriving DecidableEq

/-- The component an event belongs to. -/
def LEvent.component : LEvent → LComponent
  | .startBegin c => c
  | .startEnd c => c
  | .stopBegin c => c
  | .stopEnd c => c

/-- Whether an event is a stop event. -/
def LEvent.isStop : LEvent → Bool
  | .stopBegin _ => true
  | .stopEnd _ => true
  | _ => false

/-- The Starter: an ordered sequence of Restartables. -/
structure Starter where
  members : List LComponent
deriving DecidableEq

/-- `restart.NewStarter(cs...)`. -/
def NewStarter (cs : List LComponent) : Starter :=
  ⟨cs⟩

/-- `Starter.Add` appends one more Restartable at the end. -/
def Starter.Add (s : Starter) (c : LComponent) : Starter :=
  ⟨s.members ++ [c]⟩

/-- The trace of starting an ordered sequence of components
synchronously: each member contributes its begin event immediately
followed by its end event, in sequence order. -/
def serialStartTrace (ms : List LComponent) : List LEvent :=
  ms.flatMap fun c => [.startBegin c, .startEnd c]

/-- Modelled from the spec: `Starter.Start()` invokes each member's
`Start()` in sequence order, synchronously, so each member's start
completes before the next member's start begins. -/
def Starter.Start (s : Starter) : List LEvent :=
  serialStartTrace s.members

/-- The ParallelStopper: an unordered set of peer Restartables stopped
concurrently. -/
structure ParallelStopper where
  members : List LComponent
deriving DecidableEq

/-- `restart.NewParallelStopper()`. -/
def NewParallelStopper : ParallelStopper :=
  ⟨[]⟩

/-- `ParallelStopper.Add` adds one more member. -/
def ParallelStopper.Add (p : ParallelStopper) (c : LComponent) : ParallelStopper :=
  ⟨p.members ++ [c]⟩

/-- Modelled from the spec: `ParallelStopper.Stop()` stops all members
concurrently and waits for every one to complete, so a valid trace is any
interleaving in which every event is a stop event of some member and each
member contributes exactly its begin followed by its end. -/
def ParallelStopTrace (ms : List LComponent) (g : List LEvent) : Prop :=
  (∀ e ∈ g, e.isStop = true ∧ e.component ∈ ms) ∧
  (∀ c ∈ ms, g.filter (fun e => e.component = c) = [.stopBegin c, .stopEnd c])

/-- One stop-group of a SerialStopper: a ParallelStopper or a single
component. -/
inductive StopGroup
  | parallel (p : ParallelStopper)
  | single (c : LComponent)
deriving DecidableEq

/-- The trace of one stop-group: a single component stops synchronously;
a parallel group produces any valid interleaving. -/
def GroupStopTrace : StopGroup → List LEvent → Prop
  | .parallel p, g => ParallelStopTrace p.members g
  | .single c, g => g = [.stopBegin c, .stopEnd c]

/-- The SerialStopper: an ordered sequence of stop-groups. -/
structure SerialStopper where
  groups : List StopGroup
deriving DecidableEq

/-- `restart.NewSerialStopper(gs...)`. -/
def NewSerialStopper (gs : List StopGroup) : SerialStopper :=
  ⟨gs⟩

/-- Modelled from the spec: `SerialStopper.Stop()` stops each group in
turn, waiting for full completion before advancing, so a valid trace is
the concatenation of one valid trace per group, in group order. -/
inductive SerialStopTrace : List StopGroup → List LEvent → Prop
  | nil : SerialStopTrace [] []
  | cons {g : StopGroup} {gs : List StopGroup} {tg ts : List LEvent} :
      GroupStopTrace g tg → SerialStopTrace gs ts → SerialStopTrace (g :: gs) (tg ++ ts)

/-- The configuration read by `NewAgent` and `Agent.Stop` through
`config.LogsAgent`. -/
structure Config where
  pipelineBufferSize : Nat
  pipelineCount : Nat
  runPath : String
  openFilesLimit : Nat
  frameSize : Nat
  stopGracePeriod : Nat
deriving DecidableEq

/-- The `Agent` struct: auditor, shared destinations context, pipeline
provider, the source-collector inputs and the health handle. -/
structure Agent where
  auditor : Auditor
  destinationsCtx : DestinationsContext
  pipelineProvider : Provider
  inputs : List Input
  health : HealthHandle
deriving DecidableEq

/-- `NewAgent`: registers health, reads the single
`logs_config.pipeline.buffer_size`, builds the auditor with it, builds the
shared destinations context (`ctxId` models its allocation identity),
builds the provider with the same buffer size, and wires the five inputs
in construction order. -/
def NewAgent (cfg : Config) (endpoints : Endpoints) (ctxId : Nat) : Agent :=
  let health := healthRegister "logs-agent"
  let pipelineBufferSize := cfg.pipelineBufferSize
  let auditor := Auditor.New cfg.runPath pipelineBufferSize health
  let destinationsCtx := NewDestinationsContext ctxId
  let pipelineProvider :=
    NewProvider cfg.pipelineCount pipelineBufferSize auditor endpoints destinationsCtx
  let inputs : List Input :=
    [.fileScanner, .containerLauncher, .listenerLauncher, .journaldLauncher,
     .windowseventLauncher]
  { auditor := auditor
    destinationsCtx := destinationsCtx
    pipelineProvider := pipelineProvider
    inputs := inputs
    health := health }

/-- Nanoseconds in Go's `time.Second`. -/
def timeSecond : Nat := 1000000000

/-- Observable events of the shutdown race in `Agent.Stop`. -/
inductive RaceEvent
  | serialStopDone
  | destinationsCtxStop (ctx : DestinationsContext)
  | returned
deriving DecidableEq

/-- The shutdown race of `Agent.Stop`, as a timed trace (time in
nanoseconds): `stopper.Stop()` runs in a goroutine and closes channel `c`
after `stopDur` nanoseconds; the select waits on `c` against
`time.After(time.Duration(gracePeriod) * time.Second)`.  If the timer
fires first, `a.destinationsCtx.Stop()` is invoked and the code then
blocks on `c` again, so in both branches the call returns only once the
serial stop sequence has completed. -/
def AgentStopRace (ctx : DestinationsContext) (stopDur gracePeriod : Nat) :
    List (Nat × RaceEvent) :=
  let timeout := gracePeriod * timeSecond
  if stopDur ≤ timeout then
    [(stopDur, .serialStopDone), (stopDur, .returned)]
  else
    [(timeout, .destinationsCtxStop ctx), (stopDur, .serialStopDone), (stopDur, .returned)]

/-- `Agent.Start`: builds a fresh Starter over destinationsCtx, auditor,
pipelineProvider, adds each input in order, and runs it.  The Go method
writes no Agent field, so the resulting Agent is rebuilt field by field
unchanged.  Returns (agent after the call, the starter built, the start
trace). -/
def Agent.Start (a : Agent) : Agent × Starter × List LEvent :=
  let starter := NewStarter [.destinationsCtx, .auditor, .pipelineProvider]
  let starter := a.inputs.foldl (fun s i => Starter.Add s (.input i)) starter
  ({ auditor := a.auditor
     destinationsCtx := a.destinationsCtx
     pipelineProvider := a.pipelineProvider
     inputs := a.inputs
     health := a.health },
   starter, starter.Start)

/-- `Agent.Stop`: builds a fresh ParallelStopper over the inputs and a
fresh SerialStopper over (inputs, pipelineProvider, auditor,
destinationsCtx), then runs the shutdown race; `stopDur` is the running
time of the serial stop sequence and `gracePeriod` is the
`logs_config.stop_grace_period` integer read from configuration.  The Go
method writes no Agent field.  Returns (agent after the call, the serial
stopper built, the timed race trace). -/
def Agent.Stop (a : Agent) (stopDur gracePeriod : Nat) :
    Agent × SerialStopper × List (Nat × RaceEvent) :=
  let inputs := a.inputs.foldl (fun p i => ParallelStopper.Add p (.input i)) NewParallelStopper
  let stopper := NewSerialStopper
    [.parallel inputs, .single .pipelineProvider, .single .auditor, .single .destinationsCtx]
  ({ auditor := a.auditor
     destinationsCtx := a.destinationsCtx
     pipelineProvider := a.pipelineProvider
     inputs := a.inputs
     health := a.health },
   stopper, AgentStopRace a.destinationsCtx stopDur gracePeriod)

/-- Strict precedence of events in a trace: every occurrence of `e1`
comes before every occurrence of `e2`. -/
def Precedes {α : Type} (t : List α) (e1 e2 : α) : Prop :=
  ∀ i j : Nat, t[i]? = some e1 → t[j]? = some e2 → i < j

/-- A sample main endpoint using the protocol-buffer encoding. -/
def sampleEndpointMain : Endpoint :=
  ⟨"agent-intake.example.com", "key-main", true⟩

/-- A sample additional endpoint. -/
def sampleEndpointAddA : Endpoint :=
  ⟨"mirror-a.example.com", "key-a", false⟩

/-- Another sample additional endpoint. -/
def sampleEndpointAddB : Endpoint :=
  ⟨"mirror-b.example.com", "key-b", true⟩

/-- A sample endpoint descriptor with one additional endpoint. -/
def sampleEndpoints1 : Endpoints :=
  ⟨sampleEndpointMain, [sampleEndpointAddA]⟩

/-- A sample endpoint descriptor with the same main endpoint but
different additional endpoints. -/
def sampleEndpoints2 : Endpoints :=
  ⟨sampleEndpointMain, [sampleEndpointAddB, sampleEndpointAddA]⟩

/-- A sample shared destinations context. -/
def sampleCtx : DestinationsContext :=
  NewDestinationsContext 7

/-- A sample output channel (toward the Auditor). -/
def sampleChan : Chan Message :=
  ⟨4, []⟩

/-- A sample configuration. -/
def sampleCfg : Config :=
  ⟨10, 4, "run-path", 100, 9000, 30⟩

/-- A sample agent built by `NewAgent`. -/
def sampleAgent : Agent :=
  NewAgent sampleCfg sampleEndpoints1 7

/-- A sample interleaved trace of the parallel stop of the five inputs:
all five begin/end pairs are present, overlapping. -/
def sampleParallelTrace : List LEvent :=
  [.stopBegin (.input .fileScanner), .stopBegin (.input .containerLauncher),
   .stopEnd (.input .containerLauncher), .stopEnd (.input .fileScanner),
   .stopBegin (.input .listenerLauncher), .stopEnd (.input .listenerLauncher),
   .stopBegin (.input .journaldLauncher), .stopBegin (.input .windowseventLauncher),
   .stopEnd (.input .journaldLauncher), .stopEnd (.input .windowseventLauncher)]

/-- A sample full trace of the serial stop sequence of `Agent.Stop`. -/
def sampleStopTrace : List LEvent :=
  sampleParallelTrace ++
    ([.stopBegin .pipelineProvider, .stopEnd .pipelineProvider] ++
      ([.stopBegin .auditor, .stopEnd .auditor] ++
        ([.stopBegin .destinationsCtx, .stopEnd .destinationsCtx] ++ [])))

/-! ## Helper lemmas -/

theorem lt_length_of_getElem? {α : Type} {t : List α} {i : Nat} {e : α}
    (h : t[i]? = some e) : i < t.length := by
  rcases List.getElem?_eq_some_iff.mp h with ⟨hi, _⟩
  exact hi

theorem precedes_of_bounded {α : Type} {t : List α} {e1 e2 : α}
    (h : ∀ i, i < t.length → ∀ j, j < t.length →
      t[i]? = some e1 → t[j]? = some e2 → i < j) :
    Precedes t e1 e2 := by
  intro i j h1 h2
  exact h i (lt_length_of_getElem? h1) j (lt_length_of_getElem? h2) h1 h2

theorem precedes_append_mid {α : Type} {t1 t2 : List α} {e1 e2 : α}
    (h1 : e1 ∉ t2) (h2 : e2 ∉ t1) : Precedes (t1 ++ t2) e1 e2 := by
  intro i j hi hj
  have hilt : i < t1.length := by
    by_contra hc
    push_neg at hc
    rw [List.getElem?_append_right hc] at hi
    exact h1 (List.getElem?_mem hi)
  have hjge : t1.length ≤ j := by
    by_contra hc
    push_neg at hc
    rw [List.getElem?_append_left hc] at hj
    exact h2 (List.getElem?_mem hj)
  omega

theorem precedes_append_right {α : Type} {t1 t2 : List α} {e1 e2 : α}
    (h1 : e1 ∉ t1) (h2 : e2 ∉ t1) (h : Precedes t2 e1 e2) :
    Precedes (t1 ++ t2) e1 e2 := by
  intro i j hi hj
  have hige : t1.length ≤ i := by
    by_contra hc
    push_neg at hc
    rw [List.getElem?_append_left hc] at hi
    exact h1 (List.getElem?_mem hi)
  have hjge : t1.length ≤ j := by
    by_contra hc
    push_neg at hc
    rw [List.getElem?_append_left hc] at hj
    exact h2 (List.getElem?_mem hj)
  rw [List.getElem?_append_right hige] at hi
  rw [List.getElem?_append_right hjge] at hj
  have := h _ _ hi hj
  omega

theorem precedes_pair {α : Type} {x y : α} (hxy : x ≠ y) : Precedes [x, y] x y := by
  intro i j hi hj
  have hi2 : i < 2 := by simpa using lt_length_of_getElem? hi
  have hj2 : j < 2 := by simpa using lt_length_of_getElem? hj
  interval_cases i <;> interval_cases j <;> simp_all

theorem precedes_triple_last {α : Type} {x y z : α}
    (h1 : y ≠ x) (h2 : z ≠ x) (h3 : z ≠ y) : Precedes [x, y, z] y z := by
  intro i j hi hj
  have hi3 : i < 3 := by simpa using lt_length_of_getElem? hi
  have hj3 : j < 3 := by simpa using lt_length_of_getElem? hj
  interval_cases i <;> interval_cases j <;> simp_all

theorem Chan.step_capacity {α : Type} (c : Chan α) (op : ChanOp α) :
    (c.step op).capacity = c.capacity := by
  cases op with
  | send x =>
    simp only [Chan.step]
    split <;> rfl
  | recv => rfl

theorem Chan.step_length_le {α : Type} (c : Chan α) (op : ChanOp α)
    (h : c.buffer.length ≤ c.capacity) :
    (c.step op).buffer.length ≤ (c.step op).capacity := by
  rw [Chan.step_capacity]
  cases op with
  | send x =>
    simp only [Chan.step]
    split
    · simp only [List.length_append, List.length_singleton]
      omega
    · exact h
  | recv =>
    simp only [Chan.step]
    have := List.length_tail c.buffer
    omega

theorem Chan.run_length_le {α : Type} (c : Chan α) (ops : List (ChanOp α))
    (h : c.buffer.length ≤ c.capacity) :
    (c.run ops).buffer.length ≤ c.capacity := by
  induction ops generalizing c with
  | nil => exact h
  | cons op ops ih =>
    have h1 := Chan.step_length_le c op h
    have h2 := ih (c.step op) h1
    rw [Chan.step_capacity] at h2
    simpa [Chan.run, List.foldl_cons] using h2

theorem mkChan_natCast (α : Type) (B : Nat) : mkChan α ((B : Nat) : Int) = some ⟨B, []⟩ := by
  unfold mkChan
  rw [if_neg (by omega)]
  simp

theorem mem_serialStartTrace {e : LEvent} {ms : List LComponent} :
    e ∈ serialStartTrace ms ↔ ∃ c, c ∈ ms ∧ (e = .startBegin c ∨ e = .startEnd c) := by
  simp [serialStartTrace]

theorem startBegin_mem_serialStartTrace {c : LComponent} {ms : List LComponent}
    (h : c ∈ ms) : LEvent.startBegin c ∈ serialStartTrace ms :=
  mem_serialStartTrace.mpr ⟨c, h, Or.inl rfl⟩

theorem startEnd_mem_serialStartTrace {c : LComponent} {ms : List LComponent}
    (h : c ∈ ms) : LEvent.startEnd c ∈ serialStartTrace ms :=
  mem_serialStartTrace.mpr ⟨c, h, Or.inr rfl⟩

theorem startBegin_not_mem_serialStartTrace {c : LComponent} {ms : List LComponent}
    (h : c ∉ ms) : LEvent.startBegin c ∉ serialStartTrace ms := by
  intro hc
  rcases mem_serialStartTrace.mp hc with ⟨d, hd, hcd | hcd⟩
  · cases hcd
    exact h hd
  · simp at hcd

theorem startEnd_not_mem_serialStartTrace {c : LComponent} {ms : List LComponent}
    (h : c ∉ ms) : LEvent.startEnd c ∉ serialStartTrace ms := by
  intro hc
  rcases mem_serialStartTrace.mp hc with ⟨d, hd, hcd | hcd⟩
  · simp at hcd
  · cases hcd
    exact h hd

theorem serialStartTrace_cons (c : LComponent) (rest : List LComponent) :
    serialStartTrace (c :: rest) =
      [LEvent.startBegin c, LEvent.startEnd c] ++ serialStartTrace rest := by
  simp [serialStartTrace]

theorem serialStartTrace_order {ms : List LComponent} (hnd : ms.Nodup) :
    ∀ i j : Nat, (hij : i < j) → (hj : j < ms.length) →
      Precedes (serialStartTrace ms) (.startEnd (ms.get ⟨i, Nat.lt_trans hij hj⟩))
        (.startBegin (ms.get ⟨j, hj⟩)) := by
  induction ms with
  | nil =>
    intro i j hij hj
    simp at hj
  | cons c rest ih =>
    intro i j hij hj
    have hnd1 : c ∉ rest := (List.nodup_cons.mp hnd).1
    have hnd2 : rest.Nodup := (List.nodup_cons.mp hnd).2
    obtain ⟨j0, rfl⟩ : ∃ j0, j = j0 + 1 := ⟨j - 1, by omega⟩
    have hj0 : j0 < rest.length := by
      simp only [List.length_cons] at hj
      omega
    rw [serialStartTrace_cons]
    have hgetj : (c :: rest).get ⟨j0 + 1, hj⟩ = rest.get ⟨j0, hj0⟩ := rfl
    rw [hgetj]
    cases i with
    | zero =>
      have hget0 : (c :: rest).get ⟨0, Nat.lt_trans hij hj⟩ = c := rfl
      rw [hget0]
      apply precedes_append_mid
      · exact startEnd_not_mem_serialStartTrace hnd1
      · intro hmem
        have heq : rest.get ⟨j0, hj0⟩ = c := by simpa using hmem
        exact hnd1 (heq ▸ List.get_mem rest j0 hj0)
    | succ i0 =>
      have hi0 : i0 < rest.length := by omega
      have hgeti : (c :: rest).get ⟨i0 + 1, Nat.lt_trans hij hj⟩ = rest.get ⟨i0, hi0⟩ := rfl
      rw [hgeti]
      apply precedes_append_right
      · intro hmem
        have heq : rest.get ⟨i0, hi0⟩ = c := by simpa using hmem
        exact hnd1 (heq ▸ List.get_mem rest i0 hi0)
      · intro hmem
        have heq : rest.get ⟨j0, hj0⟩ = c := by simpa using hmem
        exact hnd1 (heq ▸ List.get_mem rest j0 hj0)
      · exact ih hnd2 i0 j0 (by omega) hj0

theorem starter_foldl_members (s : Starter) (xs : List Input) :
    (xs.foldl (fun acc i => Starter.Add acc (.input i)) s).members =
      s.members ++ xs.map (fun i => LComponent.input i) := by
  induction xs generalizing s with
  | nil => simp
  | cons x xs ih =>
    rw [List.foldl_cons, ih]
    simp [Starter.Add]

theorem parallelStopper_foldl_members (p : ParallelStopper) (xs : List Input) :
    (xs.foldl (fun acc i => ParallelStopper.Add acc (.input i)) p).members =
      p.members ++ xs.map (fun i => LComponent.input i) := by
  induction xs generalizing p with
  | nil => simp
  | cons x xs ih =>
    rw [List.foldl_cons, ih]
    simp [ParallelStopper.Add]

theorem NewPipeline_natCast (out : Chan Message) (B : Nat) (e : Endpoints)
    (ctx : DestinationsContext) :
    NewPipeline out ((B : Nat) : Int) e ctx = some
      { InputChan := ⟨B, []⟩
        processor := Processor.New ⟨B, []⟩ ⟨B, []⟩ (NewEncoder e.Main.UseProto)
        sender := NewSender ⟨B, []⟩ out (NewDestinations (NewDestination e.Main ctx)
          (e.Additionals.map fun ep => NewDestination ep ctx)) } := by
  simp only [NewPipeline, mkChan_natCast]

theorem pair_get_sublist {α : Type} {l : List α} {k m : Nat} (hkm : k < m)
    (hm : m < l.length) :
    List.Sublist [l.get ⟨k, Nat.lt_trans hkm hm⟩, l.get ⟨m, hm⟩] l := by
  induction l generalizing k m with
  | nil => simp at hm
  | cons a rest ih =>
    obtain ⟨m0, rfl⟩ : ∃ m0, m = m0 + 1 := ⟨m - 1, by omega⟩
    have hm0 : m0 < rest.length := by
      simp only [List.length_cons] at hm
      omega
    cases k with
    | zero =>
      exact List.Sublist.cons₂ a (List.singleton_sublist.mpr (List.get_mem rest m0 hm0))
    | succ k0 =>
      exact List.Sublist.cons a (ih (by omega) hm0)

theorem serialStartTrace_order_sublist {ms : List LComponent} (hnd : ms.Nodup)
    {c1 c2 : LComponent} (hsub : List.Sublist [c1, c2] ms) :
    Precedes (serialStartTrace ms) (.startEnd c1) (.startBegin c2) := by
  induction ms with
  | nil => cases hsub
  | cons c rest ih =>
    have hnd1 : c ∉ rest := (List.nodup_cons.mp hnd).1
    have hnd2 : rest.Nodup := (List.nodup_cons.mp hnd).2
    cases hsub with
    | cons a h1 =>
      have hc1 : c1 ∈ rest := h1.subset (by simp)
      have hc2 : c2 ∈ rest := h1.subset (by simp)
      rw [serialStartTrace_cons]
      apply precedes_append_right
      · intro hmem
        have heq : c1 = c := by simpa using hmem
        exact hnd1 (heq ▸ hc1)
      · intro hmem
        have heq : c2 = c := by simpa using hmem
        exact hnd1 (heq ▸ hc2)
      · exact ih hnd2 h1
    | cons₂ a h1 =>
      have hc2 : c2 ∈ rest := List.singleton_sublist.mp h1
      rw [serialStartTrace_cons]
      apply precedes_append_mid
      · exact startEnd_not_mem_serialStartTrace hnd1
      · intro hmem
        have heq : c2 = c1 := by simpa using hmem
        exact hnd1 (heq ▸ hc2)

/-! ## Claim theorems -/

/-- C4: for every Pipeline, `Pipeline.Stop` stops the Processor before the
Sender: `Processor.Stop` is invoked and completes before `Sender.Stop` is
invoked. -/
theorem pipeline_stop_processor_before_sender (p : Pipeline) :
    StageEvent.stopBegin .processor ∈ p.Stop ∧
    StageEvent.stopEnd .processor ∈ p.Stop ∧
    StageEvent.stopBegin .sender ∈ p.Stop ∧
    StageEvent.stopEnd .sender ∈ p.Stop ∧
    Precedes p.Stop (.stopEnd .processor) (.stopBegin .sender) := by
  have htr : p.Stop = [StageEvent.stopBegin .processor, .stopEnd .processor,
      .stopBegin .sender, .stopEnd .sender] := rfl
  rw [htr]
  exact ⟨by simp, by simp, by simp, by simp, precedes_of_bounded (by decide)⟩

/-- C5: for every Pipeline, `Pipeline.Start` starts the Sender before the
Processor: `Sender.Start` is invoked and completes before
`Processor.Start` is invoked. -/
theorem pipeline_start_sender_before_processor (p : Pipeline) :
    StageEvent.startBegin .sender ∈ p.Start ∧
    StageEvent.startEnd .sender ∈ p.Start ∧
    StageEvent.startBegin .processor ∈ p.Start ∧
    StageEvent.startEnd .processor ∈ p.Start ∧
    Precedes p.Start (.startEnd .sender) (.startBegin .processor) := by
  have htr : p.Start = [StageEvent.startBegin .sender, .startEnd .sender,
      .startBegin .processor, .startEnd .processor] := rfl
  rw [htr]
  exact ⟨by simp, by simp, by simp, by simp, precedes_of_bounded (by decide)⟩

/-- C7: every Destinations value built by `NewPipeline` has exactly one
main Destination built from `endpoints.Main`, one additional Destination
per entry of `endpoints.Additionals`, and all of them reference the same
shared DestinationsContext passed to `NewPipeline`. -/
theorem pipeline_destinations_shape (out : Chan Message) (B : Nat) (e : Endpoints)
    (ctx : DestinationsContext) :
    ∃ p, NewPipeline out ((B : Nat) : Int) e ctx = some p ∧
      p.sender.destinations.main.endpoint = e.Main ∧
      p.sender.destinations.main.destinationsContext = ctx ∧
      p.sender.destinations.additionals.length = e.Additionals.length ∧
      p.sender.destinations.additionals.map Destination.endpoint = e.Additionals ∧
      p.sender.destinations.additionals.map Destination.destinationsContext =
        e.Additionals.map (fun _ => ctx) := by
  refine ⟨_, NewPipeline_natCast out B e ctx, rfl, rfl, ?_, ?_, ?_⟩
  · simp [NewSender, NewDestinations]
  · simp [NewSender, NewDestinations, NewDestination, Function.comp_def]
  · simp [NewSender, NewDestinations, NewDestination, Function.comp_def]

/-- C8: the Processor's encoder is selected solely by the main endpoint's
protocol flag: `NewPipeline` builds it from `endpoints.Main.UseProto`,
independently of the additional endpoints and of every other argument. -/
theorem pipeline_encoder_from_main (out1 out2 : Chan Message) (B1 B2 : Nat)
    (e1 e2 : Endpoints) (ctx1 ctx2 : DestinationsContext) (hmain : e1.Main = e2.Main) :
    ∃ p1 p2, NewPipeline out1 ((B1 : Nat) : Int) e1 ctx1 = some p1 ∧
      NewPipeline out2 ((B2 : Nat) : Int) e2 ctx2 = some p2 ∧
      p1.processor.encoder = NewEncoder e1.Main.UseProto ∧
      p2.processor.encoder = NewEncoder e2.Main.UseProto ∧
      p1.processor.encoder = p2.processor.encoder := by
  refine ⟨_, _, NewPipeline_natCast out1 B1 e1 ctx1, NewPipeline_natCast out2 B2 e2 ctx2,
    rfl, rfl, ?_⟩
  simp [Processor.New, hmain]

/-- Witness for C8: two concrete pipelines sharing the main endpoint but
with different buffer sizes and additional endpoints get the same
encoder. -/
theorem pipeline_encoder_from_main_witness :
    ∃ p1 p2, NewPipeline sampleChan ((3 : Nat) : Int) sampleEndpoints1 sampleCtx = some p1 ∧
      NewPipeline sampleChan ((5 : Nat) : Int) sampleEndpoints2 sampleCtx = some p2 ∧
      p1.processor.encoder = NewEncoder sampleEndpoints1.Main.UseProto ∧
      p2.processor.encoder = NewEncoder sampleEndpoints2.Main.UseProto ∧
      p1.processor.encoder = p2.processor.encoder :=
  pipeline_encoder_from_main sampleChan sampleChan 3 5 sampleEndpoints1 sampleEndpoints2
    sampleCtx sampleCtx rfl

/-- C10: `NewPipeline` performs no validation of `bufferSize`: every
negative size makes the buffered-channel allocation panic (embedded as
`none`), and size 0 yields zero-capacity queues rather than an error. -/
theorem newPipeline_no_bufferSize_validation (out : Chan Message) (e : Endpoints)
    (ctx : DestinationsContext) (b : Int) (hb : b < 0) :
    NewPipeline out b e ctx = none ∧
    ∃ p, NewPipeline out 0 e ctx = some p ∧
      p.InputChan.capacity = 0 ∧ p.sender.inputChan.capacity = 0 := by
  constructor
  · simp only [NewPipeline, mkChan, if_pos hb]
  · have h := NewPipeline_natCast out 0 e ctx
    rw [Nat.cast_zero] at h
    exact ⟨_, h, rfl, rfl⟩

/-- Witness for C10: buffer size -1 panics, buffer size 0 builds
unbuffered queues. -/
theorem newPipeline_no_bufferSize_validation_witness :
    NewPipeline sampleChan (-1) sampleEndpoints1 sampleCtx = none ∧
    ∃ p, NewPipeline sampleChan 0 sampleEndpoints1 sampleCtx = some p ∧
      p.InputChan.capacity = 0 ∧ p.sender.inputChan.capacity = 0 :=
  newPipeline_no_bufferSize_validation sampleChan sampleEndpoints1 sampleCtx (-1)
    (by norm_num)

/-- C6: both queues created by `NewPipeline` with buffer size B are
bounded FIFO queues of capacity exactly B that can never hold more than B
messages under any sequence of channel operations, and `NewAgent` creates
the Auditor's queue and the provider's pipelines from the same single
configured buffer size. -/
theorem pipeline_queues_bounded (out : Chan Message) (B : Nat) (e : Endpoints)
    (ctx : DestinationsContext) (cfg : Config) (ctxId : Nat) :
    (∃ p, NewPipeline out ((B : Nat) : Int) e ctx = some p ∧
      p.InputChan.capacity = B ∧
      p.sender.inputChan.capacity = B ∧
      p.processor.outputChan = p.sender.inputChan ∧
      (∀ ops : List (ChanOp Message), (p.InputChan.run ops).buffer.length ≤ B) ∧
      (∀ ops : List (ChanOp Message), (p.sender.inputChan.run ops).buffer.length ≤ B)) ∧
    ((NewAgent cfg e ctxId).auditor.inputChan.capacity = cfg.pipelineBufferSize ∧
      (NewAgent cfg e ctxId).pipelineProvider.bufferSize = cfg.pipelineBufferSize ∧
      ∀ k : Fin (NewAgent cfg e ctxId).pipelineProvider.pipelines.length,
        ∃ q, (NewAgent cfg e ctxId).pipelineProvider.pipelines.get k = some q ∧
          q.InputChan.capacity = cfg.pipelineBufferSize ∧
          q.sender.inputChan.capacity = cfg.pipelineBufferSize) := by
  constructor
  · refine ⟨_, NewPipeline_natCast out B e ctx, rfl, rfl, rfl, ?_, ?_⟩
    · intro ops
      exact Chan.run_length_le (⟨B, []⟩ : Chan Message) ops (by simp)
    · intro ops
      exact Chan.run_length_le (⟨B, []⟩ : Chan Message) ops (by simp)
  · refine ⟨rfl, rfl, ?_⟩
    intro k
    refine ⟨_, (List.get_replicate _ k).trans
      (NewPipeline_natCast ⟨cfg.pipelineBufferSize, []⟩ cfg.pipelineBufferSize e
        (NewDestinationsContext ctxId)), rfl, rfl⟩

/-- C9: `Agent.Start` and `Agent.Stop` build fresh orchestrator objects
on each call and modify no field of the Agent struct: the agent value
after either call is the original agent, so a repeated call builds the
same orchestrators and trace again. -/
theorem agent_start_stop_frame (a : Agent) (d g : Nat) :
    (a.Start).1 = a ∧ (a.Stop d g).1 = a ∧
    ((a.Start).1).Start = a.Start ∧ ((a.Stop d g).1).Stop d g = a.Stop d g :=
  ⟨rfl, rfl, rfl, rfl⟩

/-- C3: for every call to `Agent.Start`, Start is invoked synchronously on
each managed component in the order destinationsCtx, auditor,
pipelineProvider, then each source-collector input in construction order,
each member's start completing before the next member's start begins. -/
theorem agent_start_order (a : Agent) (hnd : a.inputs.Nodup) :
    (LEvent.startBegin .destinationsCtx ∈ (a.Start).2.2 ∧
     LEvent.startEnd .destinationsCtx ∈ (a.Start).2.2 ∧
     LEvent.startBegin .auditor ∈ (a.Start).2.2 ∧
     LEvent.startEnd .auditor ∈ (a.Start).2.2 ∧
     LEvent.startBegin .pipelineProvider ∈ (a.Start).2.2 ∧
     LEvent.startEnd .pipelineProvider ∈ (a.Start).2.2 ∧
     ∀ i ∈ a.inputs, LEvent.startBegin (.input i) ∈ (a.Start).2.2 ∧
       LEvent.startEnd (.input i) ∈ (a.Start).2.2) ∧
    Precedes (a.Start).2.2 (.startEnd .destinationsCtx) (.startBegin .auditor) ∧
    Precedes (a.Start).2.2 (.startEnd .auditor) (.startBegin .pipelineProvider) ∧
    (∀ i ∈ a.inputs,
      Precedes (a.Start).2.2 (.startEnd .pipelineProvider) (.startBegin (.input i))) ∧
    (∀ k l : Nat, (hkl : k < l) → (hl : l < a.inputs.length) →
      Precedes (a.Start).2.2
        (.startEnd (.input (a.inputs.get ⟨k, Nat.lt_trans hkl hl⟩)))
        (.startBegin (.input (a.inputs.get ⟨l, hl⟩)))) := by
  have htr : (a.Start).2.2 = serialStartTrace
      (LComponent.destinationsCtx :: LComponent.auditor :: LComponent.pipelineProvider ::
        a.inputs.map (fun i => LComponent.input i)) := by
    show Starter.Start (a.inputs.foldl (fun s i => Starter.Add s (.input i))
      (NewStarter [.destinationsCtx, .auditor, .pipelineProvider])) = _
    rw [Starter.Start, starter_foldl_members]
    rfl
  have hndms : (LComponent.destinationsCtx :: LComponent.auditor ::
      LComponent.pipelineProvider :: a.inputs.map (fun i => LComponent.input i)).Nodup := by
    have hmap : (a.inputs.map (fun i => LComponent.input i)).Nodup :=
      hnd.map (fun x y hxy => LComponent.input.inj hxy)
    refine List.nodup_cons.mpr ⟨?_, List.nodup_cons.mpr ⟨?_, List.nodup_cons.mpr ⟨?_, hmap⟩⟩⟩
    · simp
    · simp
    · simp
  rw [htr]
  refine ⟨⟨?_, ?_, ?_, ?_, ?_, ?_, ?_⟩, ?_, ?_, ?_, ?_⟩
  · exact startBegin_mem_serialStartTrace (by simp)
  · exact startEnd_mem_serialStartTrace (by simp)
  · exact startBegin_mem_serialStartTrace (by simp)
  · exact startEnd_mem_serialStartTrace (by simp)
  · exact startBegin_mem_serialStartTrace (by simp)
  · exact startEnd_mem_serialStartTrace (by simp)
  · intro i hi
    exact ⟨startBegin_mem_serialStartTrace (by simp [hi]),
      startEnd_mem_serialStartTrace (by simp [hi])⟩
  · exact serialStartTrace_order_sublist hndms
      (List.Sublist.cons₂ _ (List.Sublist.cons₂ _ (List.nil_sublist _)))
  · exact serialStartTrace_order_sublist hndms
      (List.Sublist.cons _ (List.Sublist.cons₂ _ (List.Sublist.cons₂ _ (List.nil_sublist _))))
  · intro i hi
    exact serialStartTrace_order_sublist hndms
      (List.Sublist.cons _ (List.Sublist.cons _ (List.Sublist.cons₂ _
        (List.singleton_sublist.mpr (List.mem_map_of_mem _ hi)))))
  · intro k l hkl hl
    have hsub := (pair_get_sublist hkl hl).map (fun i => LComponent.input i)
    exact serialStartTrace_order_sublist hndms
      (List.Sublist.cons _ (List.Sublist.cons _ (List.Sublist.cons _ hsub)))

/-- Witness for C3: in the agent built by `NewAgent`, the shared context
finishes starting before the auditor starts. -/
theorem agent_start_order_witness :
    Precedes ((sampleAgent.Start).2.2) (.startEnd .destinationsCtx) (.startBegin .auditor) :=
  ((agent_start_order sampleAgent (by decide)).2).1

/-- C2: for every call to `Agent.Stop`, any valid trace of the serial
stopper it builds stops (1) all source-collector inputs as one parallel
group, then (2) the PipelineProvider, then (3) the Auditor, then (4) the
DestinationsContext, each group's stop completing fully before the next
group's stop begins. -/
theorem agent_stop_serial_order (a : Agent) (d g : Nat) (t : List LEvent)
    (h : SerialStopTrace ((a.Stop d g).2.1).groups t) :
    (∀ i ∈ a.inputs, LEvent.stopEnd (.input i) ∈ t ∧
      Precedes t (.stopEnd (.input i)) (.stopBegin .pipelineProvider)) ∧
    LEvent.stopEnd .pipelineProvider ∈ t ∧
    Precedes t (.stopEnd .pipelineProvider) (.stopBegin .auditor) ∧
    LEvent.stopEnd .auditor ∈ t ∧
    Precedes t (.stopEnd .auditor) (.stopBegin .destinationsCtx) ∧
    LEvent.stopEnd .destinationsCtx ∈ t := by
  have hps : (a.inputs.foldl (fun p i => ParallelStopper.Add p (.input i))
      NewParallelStopper) = (⟨a.inputs.map (fun i => LComponent.input i)⟩ : ParallelStopper) :=
    congrArg ParallelStopper.mk (by rw [parallelStopper_foldl_members]; rfl)
  have hgroups : ((a.Stop d g).2.1).groups =
      [StopGroup.parallel ⟨a.inputs.map (fun i => LComponent.input i)⟩,
       .single .pipelineProvider, .single .auditor, .single .destinationsCtx] := by
    show (NewSerialStopper
      [.parallel (a.inputs.foldl (fun p i => ParallelStopper.Add p (.input i))
        NewParallelStopper),
       .single .pipelineProvider, .single .auditor, .single .destinationsCtx]).groups = _
    rw [hps]
    rfl
  rw [hgroups] at h
  rcases h with _ | ⟨hp, h⟩
  rcases h with _ | ⟨h2, h⟩
  rcases h with _ | ⟨h3, h⟩
  rcases h with _ | ⟨h4, h⟩
  rcases h with _ | ⟨⟩
  simp only [GroupStopTrace] at hp h2 h3 h4
  subst h2
  subst h3
  subst h4
  refine ⟨?_, ?_, ?_, ?_, ?_, ?_⟩
  · intro i hi
    constructor
    · apply List.mem_append_left
      have hfil := hp.2 (.input i) (List.mem_map_of_mem _ hi)
      have hmem0 : LEvent.stopEnd (.input i) ∈
          [LEvent.stopBegin (.input i), LEvent.stopEnd (.input i)] := by simp
      rw [← hfil] at hmem0
      exact (List.mem_filter.mp hmem0).1
    · apply precedes_append_mid
      · simp
      · intro hc
        have h5 := (hp.1 _ hc).2
        simp [LEvent.component] at h5
  · apply List.mem_append_right
    simp
  · apply precedes_append_right
    · intro hc
      have h5 := (hp.1 _ hc).2
      simp [LEvent.component] at h5
    · intro hc
      have h5 := (hp.1 _ hc).2
      simp [LEvent.component] at h5
    · exact precedes_of_bounded (by decide)
  · apply List.mem_append_right
    simp
  · apply precedes_append_right
    · intro hc
      have h5 := (hp.1 _ hc).2
      simp [LEvent.component] at h5
    · intro hc
      have h5 := (hp.1 _ hc).2
      simp [LEvent.component] at h5
    · exact precedes_of_bounded (by decide)
  · apply List.mem_append_right
    simp

/-- Witness for C2: a concrete interleaved stop trace of the sample agent
in which the file scanner finishes stopping before the provider starts
stopping. -/
theorem agent_stop_serial_order_witness :
    LEvent.stopEnd (.input .fileScanner) ∈ sampleStopTrace ∧
    Precedes sampleStopTrace (.stopEnd (.input .fileScanner)) (.stopBegin .pipelineProvider) := by
  have hpar : ParallelStopTrace
      ([Input.fileScanner, .containerLauncher, .listenerLauncher, .journaldLauncher,
        .windowseventLauncher].map (fun i => LComponent.input i)) sampleParallelTrace := by
    constructor
    · decide
    · decide
  have hst : SerialStopTrace ((sampleAgent.Stop 0 0).2.1).groups sampleStopTrace := by
    show SerialStopTrace
      [StopGroup.parallel ⟨[Input.fileScanner, .containerLauncher, .listenerLauncher,
         .journaldLauncher, .windowseventLauncher].map (fun i => LComponent.input i)⟩,
       .single .pipelineProvider, .single .auditor, .single .destinationsCtx] sampleStopTrace
    exact SerialStopTrace.cons hpar (SerialStopTrace.cons rfl (SerialStopTrace.cons rfl
      (SerialStopTrace.cons rfl SerialStopTrace.nil)))
  exact (agent_stop_serial_order sampleAgent 0 0 sampleStopTrace hst).1 .fileScanner (by decide)

/-- C1: if the serial stop sequence has not completed within the
configured `stop_grace_period` (an integer number of seconds),
`Agent.Stop` invokes `DestinationsContext.Stop()` at the timeout, and in
both the timely and the timed-out branch the call returns only after the
serial stop sequence has completed: the stop sequence itself always runs
to completion and is never abandoned. -/
theorem agent_stop_grace_period (a : Agent) (d g : Nat) (h : g * timeSecond < d) :
    ((g * timeSecond, RaceEvent.destinationsCtxStop a.destinationsCtx) ∈ (a.Stop d g).2.2) ∧
    ∀ d2 g2 : Nat, ((d2, RaceEvent.serialStopDone) ∈ (a.Stop d2 g2).2.2 ∧
      Precedes ((a.Stop d2 g2).2.2) (d2, .serialStopDone) (d2, .returned) ∧
      ((a.Stop d2 g2).2.2).getLast? = some (d2, RaceEvent.returned)) := by
  have htr : ∀ d0 g0 : Nat, (a.Stop d0 g0).2.2 = AgentStopRace a.destinationsCtx d0 g0 :=
    fun _ _ => rfl
  constructor
  · rw [htr]
    simp only [AgentStopRace]
    rw [if_neg (by omega)]
    simp
  · intro d2 g2
    rw [htr]
    simp only [AgentStopRace]
    by_cases hc : d2 ≤ g2 * timeSecond
    · rw [if_pos hc]
      exact ⟨by simp, precedes_pair (by simp), by simp⟩
    · rw [if_neg hc]
      exact ⟨by simp, precedes_triple_last (by simp) (by simp) (by simp), by simp⟩

/-- Witness for C1: with a two-second stop sequence and a one-second
grace period, the forced context stop appears at the timeout. -/
theorem agent_stop_grace_period_witness :
    (1 * timeSecond, RaceEvent.destinationsCtxStop sampleAgent.destinationsCtx) ∈
      (sampleAgent.Stop (2 * timeSecond) 1).2.2 :=
  (agent_stop_grace_period sampleAgent (2 * timeSecond) 1 (by norm_num [timeSecond])).1

end LogsAgent
